import Mathlib

/-!
Verification of the `fn_num_types` abstract-interpretation domain for
IEEE-754 floating-point values.

The development shallowly embeds the repository's two module revisions:

* the current design (`src/utils.rs` + `src/add.rs`): the four-valued
  `Possible` lattice, the five-field `FloatPossibilities` record with split
  `positive`/`negative` sign flags, its `accept` membership test and `union`
  join, the width-tagged `FnArgFloat` wrapper with the `return_fp2` binary
  dispatch helper, and the binary `add` transfer function;
* the superseded `Range`-based revision (`src/lib.rs`), namespace `Lib`,
  from which the claims reference `cosh`, `acosh`, `to_radians` and `cbrt`.

Concrete `f64` values are modelled at the shape level (`FloatValue`):
the membership test only observes NaN-ness, infiniteness, zero-ness and the
sign bit, so a model carrying the sign bit and an exact rational magnitude
for finite values is a faithful abstraction for every claim below.
-/

namespace FnNumTypes

/-- Possibility that a boolean float property can be reached, exactly the
four variants of `Possible` in `src/utils.rs` (declared in ascending order
`No`, `ShouldNot`, `Should`, `Yes`, matching the derived `Ord`).  The
`src/lib.rs` revision declares the same four variants and implements the
identical order `No < ShouldNot < Should < Yes` through its `u8` conversion,
so both revisions share this one type. -/
inductive Possible
  | No
  | ShouldNot
  | Should
  | Yes
deriving DecidableEq, Repr

/-- Numeric rank of a `Possible` value, as in the `From<Possible> for u8`
conversion in `src/lib.rs`; the derived `Ord` of `src/utils.rs` orders the
constructors identically. -/
def Possible.toNat : Possible → Nat
  | .No => 0
  | .ShouldNot => 1
  | .Should => 2
  | .Yes => 3

instance : LinearOrder Possible :=
  LinearOrder.lift' Possible.toNat (by
    intro a b h
    cases a <;> cases b <;> simp [Possible.toNat] at h ⊢)

/-- Join of two possibilities: `Possible::any` in `src/utils.rs`, which is
`std::cmp::max`. -/
def Possible.any (a b : Possible) : Possible := max a b

/-- The `BitOr` implementation for `Possible` in `src/utils.rs`:
`std::cmp::max`. -/
def Possible.bitor (a b : Possible) : Possible := max a b

/-- The `BitAnd` implementation for `Possible` in `src/utils.rs`:
`std::cmp::min` (the lattice meet). -/
def Possible.bitand (a b : Possible) : Possible := min a b

/-- The float-shape record of `src/utils.rs`: five independent `Possible`
fields. -/
structure FloatPossibilities where
  nan : Possible
  zero : Possible
  infinite : Possible
  positive : Possible
  negative : Possible
deriving DecidableEq, Repr

/-- Field-wise join of two records: `FloatPossibilities::union` in
`src/utils.rs`. -/
def FloatPossibilities.union (s rhs : FloatPossibilities) : FloatPossibilities :=
  { nan := s.nan.bitor rhs.nan
    zero := s.zero.bitor rhs.zero
    infinite := s.infinite.bitor rhs.infinite
    positive := s.positive.bitor rhs.positive
    negative := s.negative.bitor rhs.negative }

/-- Largest finite binary64 magnitude, `f64::MAX = (2^53 - 1) * 2^971`,
as an exact rational. -/
def maxFiniteF64 : ℚ := (2 ^ 53 - 1) * 2 ^ 971

/-- Round-to-nearest-even overflow threshold for binary64: an exact sum of
magnitude at least `2^1024 - 2^970` rounds to infinity, anything smaller
rounds to a finite value. -/
def overflowThresholdF64 : ℚ := 2 ^ 1024 - 2 ^ 970

/-- Shape-level model of a concrete Rust `f64` value: NaN, a signed
infinity, or a finite value carrying its sign bit and its exact non-negative
magnitude as a rational (`neg = true` means the sign bit is set, so
`finite true 0` is `-0.0`).  This carries exactly the observations
`FloatPossibilities::accept` makes of an `f64` (NaN-ness, infiniteness,
comparison with zero, sign bit) plus the magnitude needed to model
addition. -/
inductive FloatValue
  | nan
  | inf (neg : Bool)
  | finite (neg : Bool) (mag : ℚ)
deriving DecidableEq, Repr

/-- Model of `f64::is_nan`. -/
def FloatValue.isNan : FloatValue → Bool
  | .nan => true
  | _ => false

/-- Model of `f64::is_infinite`. -/
def FloatValue.isInfinite : FloatValue → Bool
  | .inf _ => true
  | _ => false

/-- Model of `value == 0.0` for a non-NaN `f64` (both `0.0` and `-0.0`
compare equal to zero; NaN and infinities do not). -/
def FloatValue.isZero : FloatValue → Bool
  | .finite _ m => m == 0
  | _ => false

/-- Model of `f64::is_sign_negative`: the raw sign bit (for the NaN
constructor we fix the sign bit to positive; `accept` never consults the
sign of a NaN because it returns beforehand). -/
def FloatValue.isSignNegative : FloatValue → Bool
  | .nan => false
  | .inf n => n
  | .finite n _ => n

/-- Model of `f64::is_sign_positive`. -/
def FloatValue.isSignPositive (v : FloatValue) : Bool :=
  !v.isSignNegative

/-- Signed rational value of a finite `FloatValue` operand. -/
def FloatValue.signedVal : FloatValue → ℚ
  | .finite n m => if n then -m else m
  | _ => 0

/-- A model value denotes a real binary64 datum when its finite magnitude is
non-negative and bounded by `f64::MAX`. -/
def FloatValue.Valid : FloatValue → Prop
  | .finite _ m => 0 ≤ m ∧ m ≤ maxFiniteF64
  | _ => True

instance : ∀ v : FloatValue, Decidable v.Valid := by
  intro v
  cases v <;> simp only [FloatValue.Valid] <;> infer_instance

/-- Model of IEEE-754 binary64 addition (Rust `+` on `f64`) at the shape
level, under the default round-to-nearest-even mode:
NaN is absorbing; opposite infinities give NaN and any other infinite
operand propagates; a finite sum whose exact value reaches the rounding
threshold `2^1024 - 2^970` overflows to the infinity of its sign; an exactly
zero sum is `-0.0` when both sign bits are set and `+0.0` otherwise; and a
nonzero exact sum keeps its exact value and sign (for genuine binary64
operands a nonzero exact sum is never rounded to zero, since a sum that
lands in the subnormal range is computed exactly). -/
def fadd (v1 v2 : FloatValue) : FloatValue :=
  match v1, v2 with
  | .nan, _ => .nan
  | _, .nan => .nan
  | .inf n1, .inf n2 => if n1 = n2 then .inf n1 else .nan
  | .inf n1, .finite _ _ => .inf n1
  | .finite _ _, .inf n2 => .inf n2
  | .finite n1 m1, .finite n2 m2 =>
      let r : ℚ := (if n1 then -m1 else m1) + (if n2 then -m2 else m2)
      if overflowThresholdF64 ≤ |r| then .inf (decide (r < 0))
      else if r = 0 then .finite (n1 && n2) 0
      else .finite (decide (r < 0)) |r|

/-- Membership test `FloatPossibilities::accept` of `src/utils.rs`: decides
whether the record permits the concrete value, translated clause for
clause (the early `return`s become nested conditionals). -/
def FloatPossibilities.accept (s : FloatPossibilities) (value : FloatValue) : Bool :=
  if value.isNan then s.nan != Possible.No
  else if value.isInfinite && (s.infinite == Possible.No) then false
  else if value.isZero && (s.zero == Possible.No) then false
  else if value.isSignPositive && (s.positive == Possible.No) then false
  else if value.isSignNegative && (s.negative == Possible.No) then false
  else true

/-- Width-tagged argument wrapper `FnArgFloat` of `src/utils.rs`. -/
inductive FnArgFloat
  | F32 (fp : FloatPossibilities)
  | F64 (fp : FloatPossibilities)
deriving DecidableEq, Repr

/-- Underlying record of a width-tagged argument. -/
def FnArgFloat.fp : FnArgFloat → FloatPossibilities
  | .F32 fp => fp
  | .F64 fp => fp

/-- The two width tags (32-bit and 64-bit). -/
inductive Width
  | w32
  | w64
deriving DecidableEq, Repr

/-- Width tag carried by a wrapped argument. -/
def FnArgFloat.tag : FnArgFloat → Width
  | .F32 _ => .w32
  | .F64 _ => .w64

/-- Wrap a record under a given width tag. -/
def tagWith : Width → FloatPossibilities → FnArgFloat
  | .w32, fp => .F32 fp
  | .w64, fp => .F64 fp

/-- Binary dispatch helper `return_fp2` of `src/utils.rs`.  The source
panics on mismatched width tags (`panic!("Different types")`); the panic is
embedded as `none`, and a matching-width call returns `some` of the result
under the common tag. -/
def return_fp2 (lhs rhs : FnArgFloat)
    (possibilities : FloatPossibilities → FloatPossibilities → FloatPossibilities) :
    Option FnArgFloat :=
  match lhs, rhs with
  | .F32 fp1, .F32 fp2 => some (.F32 (possibilities fp1 fp2))
  | .F64 fp1, .F64 fp2 => some (.F64 (possibilities fp1 fp2))
  | _, _ => none

/-- The fixed overflow record of `src/add.rs` (local `overflow` binding):
`infinite = ShouldNot`, every other field `No`. -/
def overflow : FloatPossibilities :=
  { nan := .No
    zero := .No
    infinite := .ShouldNot
    positive := .No
    negative := .No }

/-- Record-level body of `add` in `src/add.rs` (the closure passed to
`return_fp2`), translated statement for statement: base union, the two
overflow clauses, the opposite-infinities NaN clause, and the zero
clause. -/
def addFP (fp1 fp2 : FloatPossibilities) : FloatPossibilities :=
  let res := fp1.union fp2
  let res :=
    if Possible.bitand fp1.negative fp2.negative ≠ Possible.No then res.union overflow else res
  let res :=
    if Possible.bitand fp1.positive fp2.positive ≠ Possible.No then res.union overflow else res
  let both_inf := Possible.bitand fp1.infinite fp2.infinite
  let opposite :=
    Possible.bitor (Possible.bitand fp1.positive fp2.negative)
      (Possible.bitand fp1.negative fp2.positive)
  let res := { res with nan := Possible.bitor res.nan (Possible.bitand both_inf opposite) }
  { res with zero := Possible.bitor res.zero opposite }

/-- Binary addition transfer function `add` of `src/add.rs`. -/
def add (a b : FnArgFloat) : Option FnArgFloat :=
  return_fp2 a b addFP

namespace Lib

/-- Sign-range abstraction of the superseded `src/lib.rs` revision. -/
inductive Range
  | Full
  | Negative
  | Positive
deriving DecidableEq, Repr

/-- Mirror of `Range::opposite` in `src/lib.rs`. -/
def Range.opposite : Range → Range
  | .Full => .Full
  | .Negative => .Positive
  | .Positive => .Negative

/-- Mirror of `Range::can_be_positive` in `src/lib.rs`. -/
def Range.can_be_positive : Range → Possible
  | .Full => .Yes
  | .Positive => .Yes
  | .Negative => .No

/-- Mirror of `Range::can_be_negative` in `src/lib.rs`. -/
def Range.can_be_negative : Range → Possible
  | .Full => .Yes
  | .Negative => .Yes
  | .Positive => .No

/-- Float-shape record of the `src/lib.rs` revision: NaN / zero / infinite
possibilities plus a `Range` in place of split sign flags. -/
structure FloatPossibilities where
  nan : Possible
  zero : Possible
  infinite : Possible
  range : Range
deriving DecidableEq, Repr

/-- Width-tagged argument wrapper `FnArg` of `src/lib.rs`. -/
inductive FnArg
  | F32 (fp : FloatPossibilities)
  | F64 (fp : FloatPossibilities)
deriving DecidableEq, Repr

/-- Underlying record of a `src/lib.rs` wrapped argument. -/
def FnArg.fp : FnArg → FloatPossibilities
  | .F32 fp => fp
  | .F64 fp => fp

/-- The `return_possibilities!` macro of `src/lib.rs`: apply the
record-level transformation under whichever width tag the argument
carries. -/
def return_possibilities (lhs : FnArg)
    (possibilities : FloatPossibilities → FloatPossibilities) : FnArg :=
  match lhs with
  | .F32 fp => .F32 (possibilities fp)
  | .F64 fp => .F64 (possibilities fp)

/-- Record-level body of `cosh` in `src/lib.rs`: positive range, zero
impossible, infinity possible, NaN propagated. -/
def coshFP (lhs : FloatPossibilities) : FloatPossibilities :=
  { range := .Positive
    zero := .No
    infinite := .Yes
    nan := lhs.nan }

/-- Transfer function `cosh` of `src/lib.rs`. -/
def cosh (lhs : FnArg) : FnArg :=
  return_possibilities lhs coshFP

/-- Record-level body of `acosh` in `src/lib.rs` (the input record is
ignored except that nothing of it survives). -/
def acoshFP (_lhs : FloatPossibilities) : FloatPossibilities :=
  { range := .Positive
    zero := .Yes
    infinite := .Yes
    nan := .Yes }

/-- Transfer function `acosh` of `src/lib.rs`. -/
def acosh (lhs : FnArg) : FnArg :=
  return_possibilities lhs acoshFP

/-- Transfer function `to_radians` of `src/lib.rs`: returns its argument. -/
def to_radians (lhs : FnArg) : FnArg :=
  lhs

/-- Transfer function `cbrt` of `src/lib.rs`: returns its argument. -/
def cbrt (lhs : FnArg) : FnArg :=
  lhs

end Lib

/-! Lattice facts about `Possible` used throughout. -/

theorem Possible.bitor_no_right (a : Possible) : a.bitor .No = a := by
  cases a <;> decide

theorem Possible.bitor_comm (a b : Possible) : a.bitor b = b.bitor a := by
  cases a <;> cases b <;> decide

theorem Possible.bitor_assoc (a b c : Possible) :
    (a.bitor b).bitor c = a.bitor (b.bitor c) := by
  cases a <;> cases b <;> cases c <;> decide

theorem Possible.bitor_self (a : Possible) : a.bitor a = a := by
  cases a <;> decide

theorem Possible.bitor_right_idem (a b : Possible) : (a.bitor b).bitor b = a.bitor b := by
  cases a <;> cases b <;> decide

theorem Possible.bitor_ne_no : ∀ a b : Possible,
    (a ≠ .No ∨ b ≠ .No) → a.bitor b ≠ .No := by
  intro a b
  cases a <;> cases b <;> decide

theorem Possible.bitand_ne_no : ∀ a b : Possible,
    a ≠ .No → b ≠ .No → a.bitand b ≠ .No := by
  intro a b
  cases a <;> cases b <;> decide

theorem Possible.shouldNot_le_of_ne_no : ∀ a : Possible, a ≠ .No → Possible.ShouldNot ≤ a := by
  intro a
  cases a <;> decide

theorem Possible.le_bitor_left (a b : Possible) : a ≤ a.bitor b := by
  cases a <;> cases b <;> decide

theorem Possible.le_bitor_right (a b : Possible) : b ≤ a.bitor b := by
  cases a <;> cases b <;> decide

/-- Closed form of the record computed by the body of `add`: the two
conditional overflow unions only ever contribute `ShouldNot` to the
`infinite` field, and the final two assignments join the opposite-infinities
term into `nan` and the opposite-signs term into `zero`. -/
theorem addFP_eq (fp1 fp2 : FloatPossibilities) :
    addFP fp1 fp2 =
      { nan := Possible.bitor (Possible.bitor fp1.nan fp2.nan)
          (Possible.bitand (Possible.bitand fp1.infinite fp2.infinite)
            (Possible.bitor (Possible.bitand fp1.positive fp2.negative)
              (Possible.bitand fp1.negative fp2.positive)))
        zero := Possible.bitor (Possible.bitor fp1.zero fp2.zero)
          (Possible.bitor (Possible.bitand fp1.positive fp2.negative)
            (Possible.bitand fp1.negative fp2.positive))
        infinite := Possible.bitor (Possible.bitor fp1.infinite fp2.infinite)
          (if Possible.bitand fp1.negative fp2.negative ≠ Possible.No ∨
              Possible.bitand fp1.positive fp2.positive ≠ Possible.No
            then Possible.ShouldNot else Possible.No)
        positive := Possible.bitor fp1.positive fp2.positive
        negative := Possible.bitor fp1.negative fp2.negative } := by
  by_cases hneg : Possible.bitand fp1.negative fp2.negative ≠ Possible.No <;>
    by_cases hpos : Possible.bitand fp1.positive fp2.positive ≠ Possible.No <;>
      simp [addFP, FloatPossibilities.union, overflow, hneg, hpos,
        Possible.bitor_no_right, Possible.bitor_right_idem]

/-- Exact simplification of each claim theorem below to the record returned
under a matching width tag. -/
theorem add_tagWith (t : Width) (R1 R2 : FloatPossibilities) :
    add (tagWith t R1) (tagWith t R2) = some (tagWith t (addFP R1 R2)) := by
  cases t <;> rfl

/-- C9: over the total order `No < ShouldNot < Should < Yes`, the join
`any(a, b)` is `max(a, b)` and the meet (the `BitAnd` implementation) is
`min(a, b)`; both are commutative, associative and idempotent;
`any(No, No) = No`; and `any(Yes, x) = Yes` for every `x`. -/
theorem possible_lattice_laws :
    (Possible.No < Possible.ShouldNot ∧ Possible.ShouldNot < Possible.Should ∧
      Possible.Should < Possible.Yes) ∧
    (∀ a b : Possible, Possible.any a b = max a b) ∧
    (∀ a b : Possible, Possible.bitand a b = min a b) ∧
    (∀ a b : Possible, Possible.any a b = Possible.any b a) ∧
    (∀ a b c : Possible, Possible.any (Possible.any a b) c = Possible.any a (Possible.any b c)) ∧
    (∀ a : Possible, Possible.any a a = a) ∧
    (∀ a b : Possible, Possible.bitand a b = Possible.bitand b a) ∧
    (∀ a b c : Possible,
      Possible.bitand (Possible.bitand a b) c = Possible.bitand a (Possible.bitand b c)) ∧
    (∀ a : Possible, Possible.bitand a a = a) ∧
    Possible.any Possible.No Possible.No = Possible.No ∧
    (∀ x : Possible, Possible.any Possible.Yes x = Possible.Yes) := by
  refine ⟨by decide, fun a b => rfl, fun a b => rfl, ?_, ?_, ?_, ?_, ?_, ?_, by decide, ?_⟩
  · intro a b; cases a <;> cases b <;> decide
  · intro a b c; cases a <;> cases b <;> cases c <;> decide
  · intro a; cases a <;> decide
  · intro a b; cases a <;> cases b <;> decide
  · intro a b c; cases a <;> cases b <;> cases c <;> decide
  · intro a; cases a <;> decide
  · intro x; cases x <;> decide

/-- C8: `union` of two records is the field-wise join (field-wise maximum
in the order `No < ShouldNot < Should < Yes`) of the five fields; it is
commutative, associative and idempotent, so unioning a record with itself
is a no-op. -/
theorem union_is_fieldwise_join :
    (∀ p q : FloatPossibilities, p.union q =
      { nan := max p.nan q.nan
        zero := max p.zero q.zero
        infinite := max p.infinite q.infinite
        positive := max p.positive q.positive
        negative := max p.negative q.negative }) ∧
    (∀ p q : FloatPossibilities, p.union q = q.union p) ∧
    (∀ p q r : FloatPossibilities, (p.union q).union r = p.union (q.union r)) ∧
    (∀ p : FloatPossibilities, p.union p = p) := by
  refine ⟨fun p q => rfl, ?_, ?_, ?_⟩
  · intro p q
    cases p; cases q
    simp [FloatPossibilities.union, Possible.bitor_comm]
  · intro p q r
    cases p; cases q; cases r
    simp [FloatPossibilities.union, Possible.bitor_assoc]
  · intro p
    cases p
    simp [FloatPossibilities.union, Possible.bitor_self]

/-- C10: `to_radians` and `cbrt` are exact identity passthroughs: the
output equals the input wrapper (hence the same record in every field and
the same width tag). -/
theorem to_radians_cbrt_identity (lhs : Lib.FnArg) :
    Lib.to_radians lhs = lhs ∧ Lib.cbrt lhs = lhs :=
  ⟨rfl, rfl⟩

/-- C5: the binary addition function fails (panics, embedded as `none`)
exactly when its two arguments carry different width tags, and any result
it does return carries the tag of its (matching) arguments. -/
theorem add_width_behavior (a b : FnArgFloat) :
    ((add a b).isNone = (a.tag != b.tag)) ∧
    ((add a b).all (fun out => out.tag == a.tag) = true) := by
  cases a <;> cases b <;> exact ⟨rfl, rfl⟩

/-- C2 (amended): for every input, `cosh` yields zero `No` (the claim says
`Yes`, but `cosh(x) ≥ 1` and the code narrows zero to `No`), infinite
`Yes`, positive-sign possibility `Yes`, negative-sign possibility `No`
(range `Positive`), and `nan` unchanged; `acosh` yields zero `Yes`,
infinite `Yes`, positive `Yes`, negative `No`, and nan `Yes`. -/
theorem cosh_acosh_fields (lhs : Lib.FnArg) :
    ((Lib.cosh lhs).fp.zero = Possible.No ∧
      (Lib.cosh lhs).fp.infinite = Possible.Yes ∧
      (Lib.cosh lhs).fp.range.can_be_positive = Possible.Yes ∧
      (Lib.cosh lhs).fp.range.can_be_negative = Possible.No ∧
      (Lib.cosh lhs).fp.nan = lhs.fp.nan) ∧
    ((Lib.acosh lhs).fp.zero = Possible.Yes ∧
      (Lib.acosh lhs).fp.infinite = Possible.Yes ∧
      (Lib.acosh lhs).fp.range.can_be_positive = Possible.Yes ∧
      (Lib.acosh lhs).fp.range.can_be_negative = Possible.No ∧
      (Lib.acosh lhs).fp.nan = Possible.Yes) := by
  cases lhs <;> exact ⟨⟨rfl, rfl, rfl, rfl, rfl⟩, ⟨rfl, rfl, rfl, rfl, rfl⟩⟩

/-- C2 counterexample: the claim as stated says the `cosh` output has zero
possibility `Yes`; on the all-`Yes` input record the code returns zero
possibility `No`. -/
theorem cosh_zero_claim_false :
    ¬ (Lib.cosh (Lib.FnArg.F64
        { nan := .Yes, zero := .Yes, infinite := .Yes, range := .Full })).fp.zero
      = Possible.Yes := by
  decide

/-- C7: the zero field of the record computed by `add` is widened to at
least `ShouldNot` whenever the operands can merely carry opposite signs
(no hypothesis about either operand being possibly infinite is needed). -/
theorem add_zero_opposite_signs (R1 R2 : FloatPossibilities)
    (h : Possible.bitand R1.positive R2.negative ≠ Possible.No ∨
      Possible.bitand R1.negative R2.positive ≠ Possible.No) :
    Possible.ShouldNot ≤ (addFP R1 R2).zero := by
  rw [addFP_eq]
  exact le_trans
    (Possible.shouldNot_le_of_ne_no _ (Possible.bitor_ne_no _ _ h))
    (Possible.le_bitor_right _ _)

/-- Witness for C7 at a pair of finite-only records of opposite signs. -/
theorem add_zero_opposite_signs_witness :
    (Possible.bitand
        (FloatPossibilities.mk .No .No .No .Yes .No).positive
        (FloatPossibilities.mk .No .No .No .No .Yes).negative ≠ Possible.No ∨
      Possible.bitand
        (FloatPossibilities.mk .No .No .No .Yes .No).negative
        (FloatPossibilities.mk .No .No .No .No .Yes).positive ≠ Possible.No) ∧
    Possible.ShouldNot ≤
      (addFP (FloatPossibilities.mk .No .No .No .Yes .No)
        (FloatPossibilities.mk .No .No .No .No .Yes)).zero :=
  ⟨by decide, add_zero_opposite_signs _ _ (by decide)⟩

/-- C3: if both operands are possibly infinite (the meet of the `infinite`
fields is not `No`) and they can carry opposite signs, then `add` on two
records under the same width tag returns a record whose `nan` and `zero`
fields are both not `No`. -/
theorem add_opposite_infinities (t : Width) (R1 R2 : FloatPossibilities)
    (hinf : Possible.bitand R1.infinite R2.infinite ≠ Possible.No)
    (hopp : Possible.bitand R1.positive R2.negative ≠ Possible.No ∨
      Possible.bitand R1.negative R2.positive ≠ Possible.No) :
    add (tagWith t R1) (tagWith t R2) = some (tagWith t (addFP R1 R2)) ∧
    (addFP R1 R2).nan ≠ Possible.No ∧ (addFP R1 R2).zero ≠ Possible.No := by
  refine ⟨add_tagWith t R1 R2, ?_, ?_⟩ <;> rw [addFP_eq]
  · exact Possible.bitor_ne_no _ _
      (Or.inr (Possible.bitand_ne_no _ _ hinf (Possible.bitor_ne_no _ _ hopp)))
  · exact Possible.bitor_ne_no _ _ (Or.inr (Possible.bitor_ne_no _ _ hopp))

/-- Witness for C3 at a positive-infinity record added to a
negative-infinity record under the 64-bit tag. -/
theorem add_opposite_infinities_witness :
    (Possible.bitand
        (FloatPossibilities.mk .No .No .Yes .Yes .No).infinite
        (FloatPossibilities.mk .No .No .Yes .No .Yes).infinite ≠ Possible.No) ∧
    (Possible.bitand
        (FloatPossibilities.mk .No .No .Yes .Yes .No).positive
        (FloatPossibilities.mk .No .No .Yes .No .Yes).negative ≠ Possible.No ∨
      Possible.bitand
        (FloatPossibilities.mk .No .No .Yes .Yes .No).negative
        (FloatPossibilities.mk .No .No .Yes .No .Yes).positive ≠ Possible.No) ∧
    (add (tagWith .w64 (FloatPossibilities.mk .No .No .Yes .Yes .No))
        (tagWith .w64 (FloatPossibilities.mk .No .No .Yes .No .Yes)) =
      some (tagWith .w64 (addFP (FloatPossibilities.mk .No .No .Yes .Yes .No)
        (FloatPossibilities.mk .No .No .Yes .No .Yes))) ∧
      (addFP (FloatPossibilities.mk .No .No .Yes .Yes .No)
        (FloatPossibilities.mk .No .No .Yes .No .Yes)).nan ≠ Possible.No ∧
      (addFP (FloatPossibilities.mk .No .No .Yes .Yes .No)
        (FloatPossibilities.mk .No .No .Yes .No .Yes)).zero ≠ Possible.No) :=
  ⟨by decide, by decide, add_opposite_infinities .w64 _ _ (by decide) (by decide)⟩

/-- The `add` computation of `src/add.rs` with the two conditional overflow
unions skipped: the base union of the operands followed by the
opposite-infinities NaN clause and the zero clause.  This is only used to
state the overflow clauses: when either overflow condition fires, the full
result is exactly this record unioned with the fixed overflow record. -/
def addNoOverflow (fp1 fp2 : FloatPossibilities) : FloatPossibilities :=
  let res := fp1.union fp2
  let both_inf := Possible.bitand fp1.infinite fp2.infinite
  let opposite :=
    Possible.bitor (Possible.bitand fp1.positive fp2.negative)
      (Possible.bitand fp1.negative fp2.positive)
  let res := { res with nan := Possible.bitor res.nan (Possible.bitand both_inf opposite) }
  { res with zero := Possible.bitor res.zero opposite }

/-- C4: when the meet of the operands' `positive` fields (or, symmetrically,
of their `negative` fields) is not `No`, the record computed by `add` is
exactly the union of the rest of the computation with the fixed overflow
record, whose `infinite` field is exactly `ShouldNot` (not `Yes`) and whose
`nan`, `zero`, `positive` and `negative` fields are all `No`. -/
theorem add_overflow_clauses (R1 R2 : FloatPossibilities)
    (h : Possible.bitand R1.positive R2.positive ≠ Possible.No ∨
      Possible.bitand R1.negative R2.negative ≠ Possible.No) :
    addFP R1 R2 = (addNoOverflow R1 R2).union overflow ∧
    overflow.infinite = Possible.ShouldNot ∧ overflow.nan = Possible.No ∧
    overflow.zero = Possible.No ∧ overflow.positive = Possible.No ∧
    overflow.negative = Possible.No := by
  refine ⟨?_, rfl, rfl, rfl, rfl, rfl⟩
  have h' : Possible.bitand R1.negative R2.negative ≠ Possible.No ∨
      Possible.bitand R1.positive R2.positive ≠ Possible.No := h.symm
  rw [addFP_eq]
  simp [addNoOverflow, FloatPossibilities.union, overflow, h',
    Possible.bitor_no_right]

/-- Witness for C4 at two records that are both possibly positive. -/
theorem add_overflow_clauses_witness :
    (Possible.bitand
        (FloatPossibilities.mk .No .No .No .Yes .No).positive
        (FloatPossibilities.mk .No .No .No .Yes .No).positive ≠ Possible.No ∨
      Possible.bitand
        (FloatPossibilities.mk .No .No .No .Yes .No).negative
        (FloatPossibilities.mk .No .No .No .Yes .No).negative ≠ Possible.No) ∧
    (addFP (FloatPossibilities.mk .No .No .No .Yes .No)
        (FloatPossibilities.mk .No .No .No .Yes .No) =
      (addNoOverflow (FloatPossibilities.mk .No .No .No .Yes .No)
        (FloatPossibilities.mk .No .No .No .Yes .No)).union overflow ∧
      overflow.infinite = Possible.ShouldNot ∧ overflow.nan = Possible.No ∧
      overflow.zero = Possible.No ∧ overflow.positive = Possible.No ∧
      overflow.negative = Possible.No) :=
  ⟨by decide, add_overflow_clauses _ _ (by decide)⟩

/-- C6: the membership test accepts a NaN value exactly when the `nan`
field is not `No`, independently of every other field; and it rejects a
non-NaN value exactly when the value is infinite while `infinite = No`, or
equals zero while `zero = No`, or has a positive sign bit while
`positive = No`, or a negative sign bit while `negative = No`. -/
theorem accept_characterization (R : FloatPossibilities) (v : FloatValue) :
    (v.isNan = true → (R.accept v = true ↔ R.nan ≠ Possible.No)) ∧
    (v.isNan = false →
      (R.accept v = false ↔
        ((v.isInfinite = true ∧ R.infinite = Possible.No) ∨
          (v.isZero = true ∧ R.zero = Possible.No) ∨
          (v.isSignPositive = true ∧ R.positive = Possible.No) ∨
          (v.isSignNegative = true ∧ R.negative = Possible.No)))) := by
  constructor
  · intro h
    cases v <;> simp_all [FloatPossibilities.accept, FloatValue.isNan]
  · intro h
    cases v with
    | nan => simp [FloatValue.isNan] at h
    | inf n =>
        cases n <;>
          by_cases h1 : R.infinite = Possible.No <;>
            by_cases h2 : R.positive = Possible.No <;>
              by_cases h3 : R.negative = Possible.No <;>
                simp_all [FloatPossibilities.accept, FloatValue.isNan,
                  FloatValue.isInfinite, FloatValue.isZero,
                  FloatValue.isSignPositive, FloatValue.isSignNegative]
    | finite n m =>
        cases n <;>
          by_cases hm : m = 0 <;>
            by_cases h1 : R.zero = Possible.No <;>
              by_cases h2 : R.positive = Possible.No <;>
                by_cases h3 : R.negative = Possible.No <;>
                  simp_all [FloatPossibilities.accept, FloatValue.isNan,
                    FloatValue.isInfinite, FloatValue.isZero,
                    FloatValue.isSignPositive, FloatValue.isSignNegative]

/-- Witness for C6: both parts applied at concrete inputs (a NaN against a
record with `nan = Should`, and a negative infinity against a record that
rejects infinities). -/
theorem accept_characterization_witness :
    ((FloatPossibilities.mk .Should .No .No .No .No).accept .nan = true ↔
      (FloatPossibilities.mk .Should .No .No .No .No).nan ≠ Possible.No) ∧
    ((FloatPossibilities.mk .Yes .Yes .No .Yes .Yes).accept (.inf true) = false ↔
      (((FloatValue.inf true).isInfinite = true ∧
          (FloatPossibilities.mk .Yes .Yes .No .Yes .Yes).infinite = Possible.No) ∨
        ((FloatValue.inf true).isZero = true ∧
          (FloatPossibilities.mk .Yes .Yes .No .Yes .Yes).zero = Possible.No) ∨
        ((FloatValue.inf true).isSignPositive = true ∧
          (FloatPossibilities.mk .Yes .Yes .No .Yes .Yes).positive = Possible.No) ∨
        ((FloatValue.inf true).isSignNegative = true ∧
          (FloatPossibilities.mk .Yes .Yes .No .Yes .Yes).negative = Possible.No))) :=
  ⟨(accept_characterization (FloatPossibilities.mk .Should .No .No .No .No) .nan).1 rfl,
    (accept_characterization (FloatPossibilities.mk .Yes .Yes .No .Yes .Yes) (.inf true)).2 rfl⟩

/-! Facts used by the soundness proof of `add`: what `accept = true` says
about the record for each value shape, which record fields the result of
`addFP` dominates, and the two magnitude bounds of the float model. -/

theorem accept_nan_of {R : FloatPossibilities} (h : R.accept .nan = true) :
    R.nan ≠ Possible.No := by
  simpa [FloatPossibilities.accept, FloatValue.isNan] using h

theorem accept_inf_of {R : FloatPossibilities} {n : Bool} (h : R.accept (.inf n) = true) :
    R.infinite ≠ Possible.No ∧ (n = false → R.positive ≠ Possible.No) ∧
      (n = true → R.negative ≠ Possible.No) := by
  cases n <;>
    simpa [FloatPossibilities.accept, FloatValue.isNan, FloatValue.isInfinite,
      FloatValue.isZero, FloatValue.isSignPositive, FloatValue.isSignNegative,
      not_or] using h

theorem accept_finite_of {R : FloatPossibilities} {n : Bool} {m : ℚ}
    (h : R.accept (.finite n m) = true) :
    (m = 0 → R.zero ≠ Possible.No) ∧ (n = false → R.positive ≠ Possible.No) ∧
      (n = true → R.negative ≠ Possible.No) := by
  by_cases hm : m = 0 <;> cases n <;>
    simp_all [FloatPossibilities.accept, FloatValue.isNan, FloatValue.isInfinite,
      FloatValue.isZero, FloatValue.isSignPositive, FloatValue.isSignNegative,
      not_or]

theorem accept_nan_val {R : FloatPossibilities} (h : R.nan ≠ Possible.No) :
    R.accept .nan = true := by
  simp [FloatPossibilities.accept, FloatValue.isNan, h]

theorem accept_inf_val {R : FloatPossibilities} (n : Bool)
    (hinf : R.infinite ≠ Possible.No)
    (hpos : n = false → R.positive ≠ Possible.No)
    (hneg : n = true → R.negative ≠ Possible.No) :
    R.accept (.inf n) = true := by
  cases n
  · simp [FloatPossibilities.accept, FloatValue.isNan, FloatValue.isInfinite,
      FloatValue.isZero, FloatValue.isSignPositive, FloatValue.isSignNegative,
      hinf, hpos rfl]
  · simp [FloatPossibilities.accept, FloatValue.isNan, FloatValue.isInfinite,
      FloatValue.isZero, FloatValue.isSignPositive, FloatValue.isSignNegative,
      hinf, hneg rfl]

theorem accept_finite_val {R : FloatPossibilities} (n : Bool) (m : ℚ)
    (hz : m = 0 → R.zero ≠ Possible.No)
    (hpos : n = false → R.positive ≠ Possible.No)
    (hneg : n = true → R.negative ≠ Possible.No) :
    R.accept (.finite n m) = true := by
  by_cases hm : m = 0 <;> cases n <;>
    simp_all [FloatPossibilities.accept, FloatValue.isNan, FloatValue.isInfinite,
      FloatValue.isZero, FloatValue.isSignPositive, FloatValue.isSignNegative]

theorem addFP_nan_ne {R1 R2 : FloatPossibilities}
    (h : R1.nan ≠ Possible.No ∨ R2.nan ≠ Possible.No) :
    (addFP R1 R2).nan ≠ Possible.No := by
  rw [addFP_eq]
  exact Possible.bitor_ne_no _ _ (Or.inl (Possible.bitor_ne_no _ _ h))

theorem addFP_nan_ne_oppinf {R1 R2 : FloatPossibilities}
    (hi1 : R1.infinite ≠ Possible.No) (hi2 : R2.infinite ≠ Possible.No)
    (h : (R1.positive ≠ Possible.No ∧ R2.negative ≠ Possible.No) ∨
      (R1.negative ≠ Possible.No ∧ R2.positive ≠ Possible.No)) :
    (addFP R1 R2).nan ≠ Possible.No := by
  rw [addFP_eq]
  refine Possible.bitor_ne_no _ _ (Or.inr (Possible.bitand_ne_no _ _
    (Possible.bitand_ne_no _ _ hi1 hi2) ?_))
  rcases h with ⟨ha, hb⟩ | ⟨ha, hb⟩
  · exact Possible.bitor_ne_no _ _ (Or.inl (Possible.bitand_ne_no _ _ ha hb))
  · exact Possible.bitor_ne_no _ _ (Or.inr (Possible.bitand_ne_no _ _ ha hb))

theorem addFP_zero_ne {R1 R2 : FloatPossibilities}
    (h : R1.zero ≠ Possible.No ∨ R2.zero ≠ Possible.No) :
    (addFP R1 R2).zero ≠ Possible.No := by
  rw [addFP_eq]
  exact Possible.bitor_ne_no _ _ (Or.inl (Possible.bitor_ne_no _ _ h))

theorem addFP_zero_ne_opp {R1 R2 : FloatPossibilities}
    (h : (R1.positive ≠ Possible.No ∧ R2.negative ≠ Possible.No) ∨
      (R1.negative ≠ Possible.No ∧ R2.positive ≠ Possible.No)) :
    (addFP R1 R2).zero ≠ Possible.No := by
  rw [addFP_eq]
  refine Possible.bitor_ne_no _ _ (Or.inr ?_)
  rcases h with ⟨ha, hb⟩ | ⟨ha, hb⟩
  · exact Possible.bitor_ne_no _ _ (Or.inl (Possible.bitand_ne_no _ _ ha hb))
  · exact Possible.bitor_ne_no _ _ (Or.inr (Possible.bitand_ne_no _ _ ha hb))

theorem addFP_infinite_ne {R1 R2 : FloatPossibilities}
    (h : R1.infinite ≠ Possible.No ∨ R2.infinite ≠ Possible.No) :
    (addFP R1 R2).infinite ≠ Possible.No := by
  rw [addFP_eq]
  exact Possible.bitor_ne_no _ _ (Or.inl (Possible.bitor_ne_no _ _ h))

theorem addFP_infinite_ne_ovf {R1 R2 : FloatPossibilities}
    (h : (R1.positive ≠ Possible.No ∧ R2.positive ≠ Possible.No) ∨
      (R1.negative ≠ Possible.No ∧ R2.negative ≠ Possible.No)) :
    (addFP R1 R2).infinite ≠ Possible.No := by
  rw [addFP_eq]
  have hcond : Possible.bitand R1.negative R2.negative ≠ Possible.No ∨
      Possible.bitand R1.positive R2.positive ≠ Possible.No := by
    rcases h with ⟨ha, hb⟩ | ⟨ha, hb⟩
    · exact Or.inr (Possible.bitand_ne_no _ _ ha hb)
    · exact Or.inl (Possible.bitand_ne_no _ _ ha hb)
  rw [if_pos hcond]
  exact Possible.bitor_ne_no _ _ (Or.inr (by decide))

theorem addFP_positive_ne {R1 R2 : FloatPossibilities}
    (h : R1.positive ≠ Possible.No ∨ R2.positive ≠ Possible.No) :
    (addFP R1 R2).positive ≠ Possible.No := by
  rw [addFP_eq]
  exact Possible.bitor_ne_no _ _ h

theorem addFP_negative_ne {R1 R2 : FloatPossibilities}
    (h : R1.negative ≠ Possible.No ∨ R2.negative ≠ Possible.No) :
    (addFP R1 R2).negative ≠ Possible.No := by
  rw [addFP_eq]
  exact Possible.bitor_ne_no _ _ h

theorem maxFiniteF64_pos : (0 : ℚ) < maxFiniteF64 := by
  norm_num [maxFiniteF64]

theorem maxFiniteF64_lt_threshold : maxFiniteF64 < overflowThresholdF64 := by
  norm_num [maxFiniteF64, overflowThresholdF64]

theorem overflowThresholdF64_pos : (0 : ℚ) < overflowThresholdF64 := by
  norm_num [overflowThresholdF64]

/-- Soundness of the record-level body of `add` on two finite operands:
the exhaustive sign analysis.  A sum of two bounded finite values can only
overflow when both operands carry the same sign (so the corresponding
overflow clause fires), an exactly-zero sum is covered by the operands' zero
fields or by the opposite-signs zero clause, and a nonzero finite sum takes
the sign of one of its operands. -/
theorem addFP_sound_finite {R1 R2 : FloatPossibilities} (n1 n2 : Bool) (m1 m2 : ℚ)
    (hm1 : 0 ≤ m1 ∧ m1 ≤ maxFiniteF64) (hm2 : 0 ≤ m2 ∧ m2 ≤ maxFiniteF64)
    (h1 : R1.accept (.finite n1 m1) = true) (h2 : R2.accept (.finite n2 m2) = true) :
    (addFP R1 R2).accept (fadd (.finite n1 m1) (.finite n2 m2)) = true := by
  obtain ⟨hz1, hp1, hn1⟩ := accept_finite_of h1
  obtain ⟨hz2, hp2, hn2⟩ := accept_finite_of h2
  cases n1 <;> cases n2
  · -- both sign bits positive: sum is non-negative
    have hfadd : fadd (.finite false m1) (.finite false m2)
        = (if overflowThresholdF64 ≤ |m1 + m2| then FloatValue.inf (decide (m1 + m2 < 0))
            else if m1 + m2 = 0 then FloatValue.finite false 0
            else FloatValue.finite (decide (m1 + m2 < 0)) |m1 + m2|) := rfl
    have hr : 0 ≤ m1 + m2 := add_nonneg hm1.1 hm2.1
    have hnlt : ¬ (m1 + m2 < 0) := not_lt.mpr hr
    rw [hfadd, abs_of_nonneg hr, decide_eq_false hnlt]
    by_cases hov : overflowThresholdF64 ≤ m1 + m2
    · rw [if_pos hov]
      exact accept_inf_val false (addFP_infinite_ne_ovf (Or.inl ⟨hp1 rfl, hp2 rfl⟩))
        (fun _ => addFP_positive_ne (Or.inl (hp1 rfl))) (fun h => Bool.noConfusion h)
    · rw [if_neg hov]
      by_cases hz : m1 + m2 = 0
      · rw [if_pos hz]
        have hm10 : m1 = 0 := by linarith [hm2.1]
        exact accept_finite_val false 0 (fun _ => addFP_zero_ne (Or.inl (hz1 hm10)))
          (fun _ => addFP_positive_ne (Or.inl (hp1 rfl))) (fun h => Bool.noConfusion h)
      · rw [if_neg hz]
        exact accept_finite_val false _ (fun h0 => absurd h0 hz)
          (fun _ => addFP_positive_ne (Or.inl (hp1 rfl))) (fun h => Bool.noConfusion h)
  · -- first positive, second negative: no overflow is possible
    have hfadd : fadd (.finite false m1) (.finite true m2)
        = (if overflowThresholdF64 ≤ |m1 + -m2| then FloatValue.inf (decide (m1 + -m2 < 0))
            else if m1 + -m2 = 0 then FloatValue.finite false 0
            else FloatValue.finite (decide (m1 + -m2 < 0)) |m1 + -m2|) := rfl
    have habs : |m1 + -m2| ≤ maxFiniteF64 :=
      abs_le.mpr ⟨by linarith [hm1.1, hm2.2], by linarith [hm1.2, hm2.1]⟩
    have hov : ¬ overflowThresholdF64 ≤ |m1 + -m2| :=
      not_le.mpr (lt_of_le_of_lt habs maxFiniteF64_lt_threshold)
    rw [hfadd, if_neg hov]
    by_cases hz : m1 + -m2 = 0
    · rw [if_pos hz]
      exact accept_finite_val false 0
        (fun _ => addFP_zero_ne_opp (Or.inl ⟨hp1 rfl, hn2 rfl⟩))
        (fun _ => addFP_positive_ne (Or.inl (hp1 rfl))) (fun h => Bool.noConfusion h)
    · rw [if_neg hz]
      by_cases hlt : m1 + -m2 < 0
      · rw [decide_eq_true hlt]
        exact accept_finite_val true _ (fun h0 => absurd (abs_eq_zero.mp h0) hz)
          (fun h => Bool.noConfusion h) (fun _ => addFP_negative_ne (Or.inr (hn2 rfl)))
      · rw [decide_eq_false hlt]
        exact accept_finite_val false _ (fun h0 => absurd (abs_eq_zero.mp h0) hz)
          (fun _ => addFP_positive_ne (Or.inl (hp1 rfl))) (fun h => Bool.noConfusion h)
  · -- first negative, second positive: no overflow is possible
    have hfadd : fadd (.finite true m1) (.finite false m2)
        = (if overflowThresholdF64 ≤ |(-m1) + m2| then FloatValue.inf (decide ((-m1) + m2 < 0))
            else if (-m1) + m2 = 0 then FloatValue.finite false 0
            else FloatValue.finite (decide ((-m1) + m2 < 0)) |(-m1) + m2|) := rfl
    have habs : |(-m1) + m2| ≤ maxFiniteF64 :=
      abs_le.mpr ⟨by linarith [hm1.2, hm2.1], by linarith [hm1.1, hm2.2]⟩
    have hov : ¬ overflowThresholdF64 ≤ |(-m1) + m2| :=
      not_le.mpr (lt_of_le_of_lt habs maxFiniteF64_lt_threshold)
    rw [hfadd, if_neg hov]
    by_cases hz : (-m1) + m2 = 0
    · rw [if_pos hz]
      exact accept_finite_val false 0
        (fun _ => addFP_zero_ne_opp (Or.inr ⟨hn1 rfl, hp2 rfl⟩))
        (fun _ => addFP_positive_ne (Or.inr (hp2 rfl))) (fun h => Bool.noConfusion h)
    · rw [if_neg hz]
      by_cases hlt : (-m1) + m2 < 0
      · rw [decide_eq_true hlt]
        exact accept_finite_val true _ (fun h0 => absurd (abs_eq_zero.mp h0) hz)
          (fun h => Bool.noConfusion h) (fun _ => addFP_negative_ne (Or.inl (hn1 rfl)))
      · rw [decide_eq_false hlt]
        exact accept_finite_val false _ (fun h0 => absurd (abs_eq_zero.mp h0) hz)
          (fun _ => addFP_positive_ne (Or.inr (hp2 rfl))) (fun h => Bool.noConfusion h)
  · -- both sign bits negative: sum is non-positive
    have hfadd : fadd (.finite true m1) (.finite true m2)
        = (if overflowThresholdF64 ≤ |(-m1) + -m2| then FloatValue.inf (decide ((-m1) + -m2 < 0))
            else if (-m1) + -m2 = 0 then FloatValue.finite true 0
            else FloatValue.finite (decide ((-m1) + -m2 < 0)) |(-m1) + -m2|) := rfl
    have hr : (-m1) + -m2 ≤ 0 := by linarith [hm1.1, hm2.1]
    rw [hfadd, abs_of_nonpos hr]
    by_cases hov : overflowThresholdF64 ≤ -((-m1) + -m2)
    · have hlt : (-m1) + -m2 < 0 := by
        have := overflowThresholdF64_pos
        linarith
      rw [if_pos hov, decide_eq_true hlt]
      exact accept_inf_val true (addFP_infinite_ne_ovf (Or.inr ⟨hn1 rfl, hn2 rfl⟩))
        (fun h => Bool.noConfusion h) (fun _ => addFP_negative_ne (Or.inl (hn1 rfl)))
    · rw [if_neg hov]
      by_cases hz : (-m1) + -m2 = 0
      · rw [if_pos hz]
        have hm10 : m1 = 0 := by linarith [hm2.1]
        exact accept_finite_val true 0 (fun _ => addFP_zero_ne (Or.inl (hz1 hm10)))
          (fun h => Bool.noConfusion h) (fun _ => addFP_negative_ne (Or.inl (hn1 rfl)))
      · have hlt : (-m1) + -m2 < 0 := lt_of_le_of_ne hr hz
        rw [if_neg hz, decide_eq_true hlt]
        exact accept_finite_val true _ (fun h0 => absurd (neg_eq_zero.mp h0) hz)
          (fun h => Bool.noConfusion h) (fun _ => addFP_negative_ne (Or.inl (hn1 rfl)))

/-- Soundness of the record-level body of `add` over the whole float
model. -/
theorem addFP_sound (R1 R2 : FloatPossibilities) (v1 v2 : FloatValue)
    (hv1 : v1.Valid) (hv2 : v2.Valid)
    (h1 : R1.accept v1 = true) (h2 : R2.accept v2 = true) :
    (addFP R1 R2).accept (fadd v1 v2) = true := by
  cases v1 with
  | nan =>
      cases v2 <;> exact accept_nan_val (addFP_nan_ne (Or.inl (accept_nan_of h1)))
  | inf n1 =>
      cases v2 with
      | nan => exact accept_nan_val (addFP_nan_ne (Or.inr (accept_nan_of h2)))
      | inf n2 =>
          obtain ⟨hi1, hp1, hn1⟩ := accept_inf_of h1
          obtain ⟨hi2, hp2, hn2⟩ := accept_inf_of h2
          by_cases hne : n1 = n2
          · subst hne
            have heq : fadd (.inf n1) (.inf n1) = .inf n1 := by simp [fadd]
            rw [heq]
            exact accept_inf_val n1 (addFP_infinite_ne (Or.inl hi1))
              (fun h => addFP_positive_ne (Or.inl (hp1 h)))
              (fun h => addFP_negative_ne (Or.inl (hn1 h)))
          · have heq : fadd (.inf n1) (.inf n2) = .nan := by simp [fadd, hne]
            rw [heq]
            refine accept_nan_val (addFP_nan_ne_oppinf hi1 hi2 ?_)
            cases n1 <;> cases n2
            · exact absurd rfl hne
            · exact Or.inl ⟨hp1 rfl, hn2 rfl⟩
            · exact Or.inr ⟨hn1 rfl, hp2 rfl⟩
            · exact absurd rfl hne
      | finite n2 m2 =>
          obtain ⟨hi1, hp1, hn1⟩ := accept_inf_of h1
          exact accept_inf_val n1 (addFP_infinite_ne (Or.inl hi1))
            (fun h => addFP_positive_ne (Or.inl (hp1 h)))
            (fun h => addFP_negative_ne (Or.inl (hn1 h)))
  | finite n1 m1 =>
      cases v2 with
      | nan => exact accept_nan_val (addFP_nan_ne (Or.inr (accept_nan_of h2)))
      | inf n2 =>
          obtain ⟨hi2, hp2, hn2⟩ := accept_inf_of h2
          exact accept_inf_val n2 (addFP_infinite_ne (Or.inr hi2))
            (fun h => addFP_positive_ne (Or.inr (hp2 h)))
            (fun h => addFP_negative_ne (Or.inr (hn2 h)))
      | finite n2 m2 =>
          exact addFP_sound_finite n1 n2 m1 m2 hv1 hv2 h1 h2

/-- C1: soundness of the addition transfer function.  For any two records
under the same width tag and any two concrete values the records accept,
`add` succeeds, returns a record under that same tag, and that record
accepts the IEEE-754 sum of the two values. -/
theorem add_sound (t : Width) (R1 R2 : FloatPossibilities) (v1 v2 : FloatValue)
    (hv1 : v1.Valid) (hv2 : v2.Valid)
    (h1 : R1.accept v1 = true) (h2 : R2.accept v2 = true) :
    add (tagWith t R1) (tagWith t R2) = some (tagWith t (addFP R1 R2)) ∧
    (addFP R1 R2).accept (fadd v1 v2) = true :=
  ⟨add_tagWith t R1 R2, addFP_sound R1 R2 v1 v2 hv1 hv2 h1 h2⟩

/-- Witness for C1: `1.0 + (-1.0)` under two all-`Yes` records tagged
64-bit. -/
theorem add_sound_witness :
    (FloatValue.finite false 1).Valid ∧ (FloatValue.finite true 1).Valid ∧
    (FloatPossibilities.mk .Yes .Yes .Yes .Yes .Yes).accept (.finite false 1) = true ∧
    (FloatPossibilities.mk .Yes .Yes .Yes .Yes .Yes).accept (.finite true 1) = true ∧
    (add (tagWith .w64 (FloatPossibilities.mk .Yes .Yes .Yes .Yes .Yes))
        (tagWith .w64 (FloatPossibilities.mk .Yes .Yes .Yes .Yes .Yes)) =
      some (tagWith .w64 (addFP (FloatPossibilities.mk .Yes .Yes .Yes .Yes .Yes)
        (FloatPossibilities.mk .Yes .Yes .Yes .Yes .Yes))) ∧
      (addFP (FloatPossibilities.mk .Yes .Yes .Yes .Yes .Yes)
        (FloatPossibilities.mk .Yes .Yes .Yes .Yes .Yes)).accept
        (fadd (.finite false 1) (.finite true 1)) = true) := by
  have hv1 : (FloatValue.finite false 1).Valid := by
    constructor
    · norm_num
    · rw [maxFiniteF64]; norm_num
  have hv2 : (FloatValue.finite true 1).Valid := by
    constructor
    · norm_num
    · rw [maxFiniteF64]; norm_num
  have ha1 : (FloatPossibilities.mk .Yes .Yes .Yes .Yes .Yes).accept (.finite false 1) = true := by
    decide
  have ha2 : (FloatPossibilities.mk .Yes .Yes .Yes .Yes .Yes).accept (.finite true 1) = true := by
    decide
  exact ⟨hv1, hv2, ha1, ha2, add_sound .w64 _ _ _ _ hv1 hv2 ha1 ha2⟩

end FnNumTypes
